import Mathlib

/-!
Verification of the eye-tracker repository's numerical core and calibration
state machine.

The source is TypeScript. Pure numeric code (the `Matrix` class, the
`KalmanSmoother`, the calibration capture-end handler, `finishCurrentPhase`)
is embedded shallowly: JavaScript `number[][]` matrices of statically known
shape become `Matrix (Fin m) (Fin n) ℚ`, loops become folds or `Finset`
sums, and fallible operations return `Option`.  The `DataCleaner.clean`
implementation is not part of the provided sources (only its call sites and
the `OutlierMethod` enum are), so it is modelled from the specification
text, as marked on its definition.
-/

/-- Rectangular matrix of rationals, the shallow embedding of `number[][]`
with known row/column counts. -/
abbrev Mat (m n : ℕ) : Type := Matrix (Fin m) (Fin n) ℚ

namespace JsMatrix

/-- Embedding of `Matrix.transpose` from `src/services/mathUtils.ts`. -/
def transpose {m n : ℕ} (A : Mat m n) : Mat n m := fun i j => A j i

/-- Embedding of `Matrix.multiply`: `result[i][j] = Σ_k a[i][k]*b[k][j]`. -/
def multiply {m n p : ℕ} (A : Mat m n) (B : Mat n p) : Mat m p :=
  fun i j => ∑ k, A i k * B k j

/-- The singularity tolerance literal `1e-8` from `Matrix.invert`. -/
def tol : ℚ := 1 / 10 ^ 8

/-- One column step of the Gauss-Jordan loop in `Matrix.invert`
(`src/services/mathUtils.ts` lines 26-42).  The state is the augmented
matrix `[C | D]`, split into its left and right halves.  The code takes the
diagonal entry as pivot (no row exchange), fails if its absolute value is
below `1e-8`, divides row `i` by the pivot and then subtracts
`augmented[k][i]` times the scaled row `i` from every other row `k`. -/
def gjStep {n : ℕ} (st : Mat n n × Mat n n) (i : Fin n) :
    Option (Mat n n × Mat n n) :=
  let piv := st.1 i i
  if |piv| < tol then none
  else
    some
      (fun k j => if k = i then st.1 i j / piv
                  else st.1 k j - st.1 k i * (st.1 i j / piv),
       fun k j => if k = i then st.2 i j / piv
                  else st.2 k j - st.1 k i * (st.2 i j / piv))

/-- Embedding of `Matrix.invert`: run the Gauss-Jordan elimination over all
columns starting from the augmented form `[A | I]` and return the right
half on success. -/
def invert {n : ℕ} (A : Mat n n) : Option (Mat n n) :=
  (List.foldlM gjStep (A, (1 : Mat n n)) (List.finRange n)).map Prod.snd

/-- The ridge regularization literal `lambda = 0.001` from
`Matrix.solveLeastSquares`. -/
def lam : ℚ := 1 / 1000

/-- Embedding of `Matrix.solveLeastSquares`: form `XᵗX`, add `lambda` to
every diagonal entry, invert, and multiply by `XᵗY`.  Returns `none` when
the inversion fails. -/
def solveLeastSquares {N M : ℕ} (inputs : Mat N M) (outputs : Mat N 2) :
    Option (Mat M 2) :=
  let XT := transpose inputs
  let XTX := multiply XT inputs
  let A : Mat M M := fun i j => XTX i j + if i = j then lam else 0
  match invert A with
  | none => none
  | some XTXInv => some (multiply XTXInv (multiply XT outputs))

end JsMatrix

namespace GJ

/-- Loop invariant of `Matrix.invert`: the right half of the augmented
matrix times the original matrix equals the left half.  It holds of the
initial `[A | I]` and is preserved by every row operation. -/
def LeftInv {n : ℕ} (A : Mat n n) (st : Mat n n × Mat n n) : Prop :=
  st.2 * A = st.1

/-- The left half of the augmented matrix has column `j` equal to the
corresponding identity column. -/
def ColId {n : ℕ} (C : Mat n n) (j : Fin n) : Prop :=
  ∀ k, C k j = if k = j then 1 else 0

end GJ

namespace SpecPivot

/-- Modelled from the spec: the claimed singularity tolerance `1e-10`
("fails ... if the matrix is singular within tolerance 1e-10 after
pivoting").  The source literal in `Matrix.invert` is `1e-8`. -/
def tolSpec : ℚ := 1 / 10 ^ 10

/-- Modelled from the spec: partial pivoting selects, at column `i`, the
row at or below `i` with the largest absolute entry in column `i`. -/
def pivotRow {n : ℕ} (C : Mat n n) (i : Fin n) : Fin n :=
  ((List.finRange n).filter (fun r => i ≤ r)).foldl
    (fun best r => if |C best i| < |C r i| then r else best) i

/-- Row exchange used by partial pivoting. -/
def swapRows {n : ℕ} (M : Mat n n) (a b : Fin n) : Mat n n :=
  fun k j => if k = a then M b j else if k = b then M a j else M k j

/-- Modelled from the spec: one column step of Gaussian elimination on the
augmented `[A|I]` form with partial pivoting and tolerance `1e-10`, the
inversion procedure the spec attributes to ridge training.  `Matrix.invert`
in the source has no row exchange and uses tolerance `1e-8`. -/
def ppStep {n : ℕ} (st : Mat n n × Mat n n) (i : Fin n) :
    Option (Mat n n × Mat n n) :=
  let r := pivotRow st.1 i
  let C := swapRows st.1 i r
  let D := swapRows st.2 i r
  let piv := C i i
  if |piv| < tolSpec then none
  else
    some
      (fun k j => if k = i then C i j / piv
                  else C k j - C k i * (C i j / piv),
       fun k j => if k = i then D i j / piv
                  else D k j - C k i * (D i j / piv))

/-- Modelled from the spec: full matrix inversion by Gaussian elimination
with partial pivoting, tolerance `1e-10`. -/
def invertPP {n : ℕ} (A : Mat n n) : Option (Mat n n) :=
  (List.foldlM ppStep (A, (1 : Mat n n)) (List.finRange n)).map Prod.snd

end SpecPivot

/-- A 1×1 matrix whose sole entry `1e-9` sits between the source tolerance
`1e-8` and the spec's claimed tolerance `1e-10`. -/
def ceA1 : Mat 1 1 := fun _ _ => 1 / 10 ^ 9

/-- The exchange matrix, invertible but with a zero in the (0,0) pivot
position, so inversion without row exchange fails on it. -/
def ceA2 : Mat 2 2 := fun i j => if i = j then 0 else 1

/-- Concrete training inputs for exercising `solveLeastSquares`. -/
def wIn : Mat 1 1 := fun _ _ => 1

/-- Concrete training outputs for exercising `solveLeastSquares`. -/
def wOut : Mat 1 2 := fun _ j => if j = 0 then 1 else 2

/-- The weight matrix `solveLeastSquares` produces on `wIn`/`wOut`. -/
def wW : Mat 1 2 := fun _ j => if j = 0 then 1000 / 1001 else 2000 / 1001

/-- The outlier-rejection policy enum from `src/types.ts` (`OutlierMethod`). -/
inductive OutlierMethod
  | NONE
  | TRIM_TAILS
  | STD_DEV
deriving DecidableEq

namespace DataCleaner

/-- The fixed reference feature dimension used by TRIM_TAILS ordering: the
first non-bias entry of a feature vector (index 1; index 0 is the bias). -/
def featKey (v : List ℚ) : ℚ := v.getD 1 0

/-- Comparison of sample indices by the reference feature dimension. -/
def keyLe (buffer : List (List ℚ)) (i j : ℕ) : Prop :=
  featKey (buffer.getD i []) ≤ featKey (buffer.getD j [])

instance (buffer : List (List ℚ)) : DecidableRel (keyLe buffer) := fun _ _ =>
  inferInstanceAs (Decidable (_ ≤ _))

instance (buffer : List (List ℚ)) : IsTotal ℕ (keyLe buffer) :=
  ⟨fun _ _ => le_total _ _⟩

instance (buffer : List (List ℚ)) : IsTrans ℕ (keyLe buffer) :=
  ⟨fun _ _ _ => le_trans⟩

/-- Modelled from the spec: the sample indices sorted (stably) by the
reference feature dimension. -/
def trimOrder (buffer : List (List ℚ)) : List ℕ :=
  List.insertionSort (keyLe buffer) (List.range buffer.length)

/-- Modelled from the spec: the count `floor(N * threshold)` dropped from
each end of the sorted order. -/
def trimCount (n : ℕ) (threshold : ℚ) : ℕ := (⌊(n : ℚ) * threshold⌋).toNat

/-- The indices kept by TRIM_TAILS: the middle of the sorted order. -/
def trimKept (buffer : List (List ℚ)) (threshold : ℚ) : List ℕ :=
  ((trimOrder buffer).drop (trimCount buffer.length threshold)).take
    (buffer.length - 2 * trimCount buffer.length threshold)

/-- Modelled from the spec: `DataCleaner.clean(buffer, method, threshold)`.
The implementation is not among the provided sources (only its call sites
in the calibration handler and the `OutlierMethod` enum are), so this
follows §4.2 of the spec: no-op when the buffer holds fewer than 5 samples
or the method is NONE; TRIM_TAILS sorts sample indices by the first
non-bias feature, drops `floor(N·threshold)` from each end of the sorted
order, and emits the kept samples in original relative order; STD_DEV
keeps samples whose Euclidean distance to the mean vector is at most
`mean + threshold·stddev` of those distances.  The square root used by
Euclidean distances has no exact rational form, so it is abstracted as the
`sqrtFn` parameter (no claim exercises the STD_DEV branch). -/
def clean (sqrtFn : ℚ → ℚ) (buffer : List (List ℚ)) (method : OutlierMethod)
    (threshold : ℚ) : List (List ℚ) :=
  if buffer.length < 5 then buffer
  else
    match method with
    | .NONE => buffer
    | .TRIM_TAILS =>
        let kept := trimKept buffer threshold
        (buffer.enum.filter (fun p => p.1 ∈ kept)).map Prod.snd
    | .STD_DEV =>
        let n := buffer.length
        let numF := (buffer.headD []).length
        let meanVec := (List.range numF).map
          (fun k => (buffer.map (fun v => v.getD k 0)).sum / (n : ℚ))
        let dist := fun v : List ℚ => sqrtFn
          (((List.range numF).map
            (fun k => (v.getD k 0 - meanVec.getD k 0) ^ 2)).sum)
        let dists := buffer.map dist
        let dMean := dists.sum / (n : ℚ)
        let dVar := (dists.map (fun d => (d - dMean) ^ 2)).sum / (n : ℚ)
        buffer.filter (fun v => dist v ≤ dMean + threshold * sqrtFn dVar)

end DataCleaner

/-- A four-sample buffer: too small for cleaning, which the claim's
universal statement overlooks. -/
def tinyBuf : List (List ℚ) := [[1, 10], [1, 0], [1, 20], [1, 5]]

/-- A five-sample buffer (bias 1, reference feature ascending). -/
def buf5 : List (List ℚ) := [[1, 0], [1, 1], [1, 2], [1, 3], [1, 4]]

/-- Embedding of the `KalmanSmoother` class state
(`src/services/mathUtils.ts` lines 128-156): two scalar state fields,
both initialized to 0, and the constructor's smoothing factor. -/
structure KalmanSmoother where
  x : ℚ
  y : ℚ
  alpha : ℚ

namespace KalmanSmoother

/-- The constructor `new KalmanSmoother(alpha)`: state starts at (0,0). -/
def init (alpha : ℚ) : KalmanSmoother := ⟨0, 0, alpha⟩

/-- Embedding of `KalmanSmoother.process`: on the (0,0) state the input is
adopted verbatim (first-run initialization); otherwise each axis is
exponentially smoothed.  Returns the emitted point and the next state. -/
def process (s : KalmanSmoother) (newX newY : ℚ) :
    (ℚ × ℚ) × KalmanSmoother :=
  if s.x = 0 ∧ s.y = 0 then
    ((newX, newY), { s with x := newX, y := newY })
  else
    let nx := s.alpha * newX + (1 - s.alpha) * s.x
    let ny := s.alpha * newY + (1 - s.alpha) * s.y
    ((nx, ny), { s with x := nx, y := ny })

/-- Embedding of `KalmanSmoother.reset`: both axes return to 0. -/
def reset (s : KalmanSmoother) : KalmanSmoother := { s with x := 0, y := 0 }

end KalmanSmoother

/-- The `AppState` union from `src/types.ts`. -/
inductive AppState
  | IDLE
  | LOADING_MODEL
  | HEAD_POSITIONING
  | CALIBRATION
  | TRACKING
deriving DecidableEq

/-- The `CalibrationPhase` enum from `src/types.ts`. -/
inductive CalibrationPhase
  | INITIAL_MAPPING
  | FINE_TUNING
  | VALIDATION
deriving DecidableEq

/-- The `CalibrationPoint` interface: id plus percentage coordinates. -/
structure CalibrationPoint where
  id : ℕ
  x : ℚ
  y : ℚ
  completed : Bool

/-- The `TrainingSample` interface from `src/types.ts`. -/
structure TrainingSample where
  screenX : ℚ
  screenY : ℚ
  features : List ℚ

/-- Layout constants of the embedded App in `src/services/mathUtils.ts`
(`EDGE_PAD = 4`). -/
def EDGE_PAD : ℚ := 4

def P_MIN : ℚ := EDGE_PAD

def P_MAX : ℚ := 100 - EDGE_PAD

def P_MID_1 : ℚ := 33

def P_MID_2 : ℚ := 67

/-- The 5 INITIAL_MAPPING targets. -/
def STEP_1_POINTS : List CalibrationPoint :=
  [⟨1, 50, 50, false⟩, ⟨2, 50, P_MIN, false⟩, ⟨3, 50, P_MAX, false⟩,
   ⟨4, P_MIN, 50, false⟩, ⟨5, P_MAX, 50, false⟩]

/-- The 16 FINE_TUNING grid targets. -/
def STEP_2_POINTS : List CalibrationPoint :=
  [⟨6, P_MIN, P_MIN, false⟩, ⟨7, P_MID_1, P_MIN, false⟩,
   ⟨8, P_MID_2, P_MIN, false⟩, ⟨9, P_MAX, P_MIN, false⟩,
   ⟨10, P_MIN, P_MID_1, false⟩, ⟨11, P_MID_1, P_MID_1, false⟩,
   ⟨12, P_MID_2, P_MID_1, false⟩, ⟨13, P_MAX, P_MID_1, false⟩,
   ⟨14, P_MIN, P_MID_2, false⟩, ⟨15, P_MID_1, P_MID_2, false⟩,
   ⟨16, P_MID_2, P_MID_2, false⟩, ⟨17, P_MAX, P_MID_2, false⟩,
   ⟨18, P_MIN, P_MAX, false⟩, ⟨19, P_MID_1, P_MAX, false⟩,
   ⟨20, P_MID_2, P_MAX, false⟩, ⟨21, P_MAX, P_MAX, false⟩]

/-- The 4 VALIDATION targets. -/
def STEP_3_POINTS : List CalibrationPoint :=
  [⟨22, 25, 25, false⟩, ⟨23, 75, 75, false⟩, ⟨24, 25, 75, false⟩,
   ⟨25, 75, 25, false⟩]

/-- The `calibrationSpeed` configuration values from `src/types.ts`. -/
inductive CalibrationSpeed
  | FAST
  | NORMAL
  | SLOW
deriving DecidableEq

/-- The speed multiplier ternary from the calibration effect:
`FAST ? 0.5 : SLOW ? 1.5 : 1.0`. -/
def speedMultiplier (c : CalibrationSpeed) : ℚ :=
  if c = .FAST then 1 / 2 else if c = .SLOW then 3 / 2 else 1

/-- `prepTime = 800 * speedMultiplier`. -/
def prepTime (c : CalibrationSpeed) : ℚ := 800 * speedMultiplier c

/-- `captureTime = 1200 * speedMultiplier`. -/
def captureTime (c : CalibrationSpeed) : ℚ := 1200 * speedMultiplier c

/-- The two timeouts armed per calibration point, as (fire time, value
assigned to the collecting flag): `tStart` fires at `prepTime` and turns
collection on (also clearing the buffer), `tEnd` fires at
`prepTime + captureTime` and turns it off. -/
def calibSchedule (c : CalibrationSpeed) : List (ℚ × Bool) :=
  [(prepTime c, true), (prepTime c + captureTime c, false)]

/-- Replays, at time `t` since the point became current, every timer
callback already fired (those scheduled at or before `t`, in schedule
order) over the `isCollecting` flag, which starts false.  A frame arriving
at time `t` is buffered into the per-point collection buffer exactly when
this flag is true (`processVideo` pushes only while `isCollectingRef` is
set). -/
def collectFlagAfter (timers : List (ℚ × Bool)) (t : ℚ) : Bool :=
  timers.foldl (fun acc e => if e.1 ≤ t then e.2 else acc) false

/-- Alert messages surfaced by `finishCurrentPhase` before resetting. -/
inductive CalibAlert
  | insufficientData
  | trainFailed
deriving DecidableEq

/-- The calibration-relevant React state of the embedded App: component
state plus the refs mutated by the capture-end handler. -/
structure CalibState where
  status : AppState
  calibPhase : CalibrationPhase
  calibPoints : List CalibrationPoint
  currentCalibIndex : ℕ
  retryCount : ℕ
  trainingSamples : List TrainingSample
  validationErrors : List ℚ
  collectionBuffer : List (List ℚ)
  isCollecting : Bool
  isCapturing : Bool
  accuracyScore : Option ℚ
  trained : Bool
  alert : Option CalibAlert

/-- External collaborators of the capture-end handler: the configured
`DataCleaner.clean` invocation, the regressor's `predict` and `train`
(`HybridRegressor` is not part of the provided sources), `Math.sqrt`
(no exact rational form), and the viewport dimensions. -/
structure CalibEnv where
  cleaner : List (List ℚ) → List (List ℚ)
  predict : List ℚ → ℚ × ℚ
  trainOk : List (List ℚ) → List (List ℚ) → Bool
  sqrtFn : ℚ → ℚ
  innerWidth : ℚ
  innerHeight : ℚ

/-- Embedding of `reset()` restricted to the fields modelled here: status
returns to IDLE, the accumulated training samples are discarded, and the
regressor is replaced by a fresh (untrained) instance. -/
def reset (s : CalibState) : CalibState :=
  { s with status := .IDLE, trainingSamples := [], trained := false }

/-- The VALIDATION completion computation from `finishCurrentPhase`: mean
of the recorded errors, or the sentinel 999 when none were recorded, and
the `avgError < 300` accuracy verdict. -/
def validationSummary (errors : List ℚ) : ℚ × Bool :=
  let avgError :=
    if errors.length > 0 then errors.sum / (errors.length : ℚ) else 999
  (avgError, decide (avgError < 300))

/-- Embedding of `finishCurrentPhase` from the embedded App
(`src/services/mathUtils.ts` lines 652-710, setTimeout tail omitted). -/
def finishCurrentPhase (env : CalibEnv) (s : CalibState) : CalibState :=
  if s.calibPhase = .INITIAL_MAPPING ∨ s.calibPhase = .FINE_TUNING then
    if s.trainingSamples.length < 5 then
      { reset s with alert := some .insufficientData }
    else
      let X := s.trainingSamples.map (fun d => d.features)
      let Y := s.trainingSamples.map (fun d => [d.screenX, d.screenY])
      if env.trainOk X Y then
        if s.calibPhase = .INITIAL_MAPPING then
          { s with calibPhase := .FINE_TUNING, calibPoints := STEP_2_POINTS,
                   currentCalibIndex := 0, trained := true }
        else
          { s with calibPhase := .VALIDATION, calibPoints := STEP_3_POINTS,
                   currentCalibIndex := 0, validationErrors := [],
                   trained := true }
      else
        { reset s with alert := some .trainFailed }
  else if s.calibPhase = .VALIDATION then
    { s with accuracyScore := some (validationSummary s.validationErrors).1,
             status := .LOADING_MODEL }
  else s

/-- The component-wise arithmetic average of the cleaned buffer
(`avgVector` in the capture-end handler): entry `i` sums the `i`-th
component over all kept vectors and divides by the kept count. -/
def avgVector (cleanBuffer : List (List ℚ)) : List ℚ :=
  (List.range (cleanBuffer.headD []).length).map
    (fun i => (cleanBuffer.map (fun v => v.getD i 0)).sum
      / (cleanBuffer.length : ℚ))

/-- The success path of the capture-end handler (`cleanBuffer.length > 5`):
average the cleaned buffer, convert the current point's percentages to
viewport pixels, append a TrainingSample (non-VALIDATION phases) or record
a validation error (VALIDATION), then advance the point index or finish
the phase. -/
def captureProcess (env : CalibEnv) (s : CalibState) : CalibState :=
  let s0 := { s with isCollecting := false, isCapturing := false }
  let point := s.calibPoints.getD s.currentCalibIndex ⟨0, 0, 0, false⟩
  let cleanBuffer := env.cleaner s.collectionBuffer
  let avgVec := avgVector cleanBuffer
  let screenX := point.x / 100 * env.innerWidth
  let screenY := point.y / 100 * env.innerHeight
  let s1 :=
    if s.calibPhase ≠ .VALIDATION then
      { s0 with trainingSamples :=
          s0.trainingSamples ++ [⟨screenX, screenY, avgVec⟩] }
    else
      let prediction := env.predict avgVec
      let err := env.sqrtFn
        ((prediction.1 - screenX) ^ 2 + (prediction.2 - screenY) ^ 2)
      { s0 with validationErrors := s0.validationErrors ++ [err] }
  if s.currentCalibIndex < s.calibPoints.length - 1 then
    { s1 with currentCalibIndex := s1.currentCalibIndex + 1 }
  else
    finishCurrentPhase env s1

/-- Embedding of the `tEnd` capture-end handler: stop collecting, clean
the buffer, and either process the point (more than 5 clean samples) or
retry it by bumping `retryCount`, which re-runs the calibration effect for
the same point. -/
def captureEnd (env : CalibEnv) (s : CalibState) : CalibState :=
  if 5 < (env.cleaner s.collectionBuffer).length then
    captureProcess env s
  else
    { s with isCollecting := false, isCapturing := false,
             retryCount := s.retryCount + 1 }

/-- A stub environment: NONE-method cleaning, zero predictor, always
successful training, identity square root, a 1000×800 viewport. -/
def envStub : CalibEnv :=
  { cleaner := fun b => DataCleaner.clean id b .NONE 0,
    predict := fun _ => (0, 0),
    trainOk := fun _ _ => true,
    sqrtFn := id,
    innerWidth := 1000,
    innerHeight := 800 }

/-- A five-vector collection buffer. -/
def bufFive : List (List ℚ) := [[1, 1], [1, 2], [1, 3], [1, 4], [1, 5]]

/-- A calibration state at the first INITIAL_MAPPING point with `bufFive`
collected. -/
def stateFive : CalibState :=
  { status := .CALIBRATION, calibPhase := .INITIAL_MAPPING,
    calibPoints := STEP_1_POINTS, currentCalibIndex := 0, retryCount := 0,
    trainingSamples := [], validationErrors := [], collectionBuffer := bufFive,
    isCollecting := true, isCapturing := true, accuracyScore := none,
    trained := false, alert := none }

/-- The TrainingSample built by the capture-end handler for the current
point: the percentage position scaled by the viewport, and the
component-wise average of the cleaned buffer. -/
def pointSample (env : CalibEnv) (s : CalibState) : TrainingSample :=
  ⟨(s.calibPoints.getD s.currentCalibIndex ⟨0, 0, 0, false⟩).x / 100
      * env.innerWidth,
   (s.calibPoints.getD s.currentCalibIndex ⟨0, 0, 0, false⟩).y / 100
      * env.innerHeight,
   avgVector (env.cleaner s.collectionBuffer)⟩

/-- A six-vector collection buffer (enough to process the point). -/
def bufSix : List (List ℚ) := [[1, 1], [1, 2], [1, 3], [1, 4], [1, 5], [1, 6]]

/-- `stateFive` with the six-vector buffer collected. -/
def stateSix : CalibState := { stateFive with collectionBuffer := bufSix }

/-- A state that has completed VALIDATION with two recorded errors. -/
def stateVal : CalibState :=
  { stateFive with calibPhase := .VALIDATION, calibPoints := STEP_3_POINTS,
                   validationErrors := [100, 200] }

/-- `stateVal` with no recorded validation errors. -/
def stateValEmpty : CalibState := { stateVal with validationErrors := [] }

/-- A state at the end of INITIAL_MAPPING with only 4 accumulated
samples. -/
def stateFour : CalibState :=
  { stateFive with trainingSamples :=
      [⟨0, 0, [1]⟩, ⟨1, 1, [1]⟩, ⟨2, 2, [1]⟩, ⟨3, 3, [1]⟩] }

/-- The two timer kinds armed per calibration point. -/
inductive TKind
  | tStart
  | tEnd
deriving DecidableEq

/-- The timer bookkeeping of the calibration effect: the list of pending
(not yet fired, not yet cancelled) timeouts held in `timerRef`, each
tagged with the effect generation (run count) that armed it, plus the
current generation. -/
structure TimerSys where
  pending : List (ℕ × TKind)
  gen : ℕ

/-- One effect run for a current calibration point: the cleanup of the
previous run and the body both clear `timerRef`, then a fresh
`tStart`/`tEnd` pair is armed for the new generation. -/
def armPair (ts : TimerSys) : TimerSys :=
  { pending := [(ts.gen + 1, TKind.tStart), (ts.gen + 1, TKind.tEnd)],
    gen := ts.gen + 1 }

/-- No timers armed initially. -/
def initTimers : TimerSys := { pending := [], gen := 0 }

/-- Transitions of the calibration timer system, abstracting the effect at
`src/services/mathUtils.ts` lines 569-650.  `effectCalib` is a dependency
change while CALIBRATION with a current point (cleanup cancels pending
timers, the body clears again and arms a fresh pair); `effectOther` covers
leaving CALIBRATION or a missing point (timers cancelled, none armed);
firing consumes the fired timer, and a fired `tEnd` either re-runs the
effect for the next point / phase / retry (`fireEndNext`) or leads out of
calibration entirely (`fireEndStop`).  Firing requires the timer to be
pending: a cancelled callback never runs. -/
inductive TimerStep : TimerSys → TimerSys → Prop
  | effectCalib (ts : TimerSys) : TimerStep ts (armPair ts)
  | effectOther (ts : TimerSys) :
      TimerStep ts { pending := [], gen := ts.gen }
  | fireStart (ts : TimerSys) (g : ℕ)
      (h : (g, TKind.tStart) ∈ ts.pending) :
      TimerStep ts { ts with pending := ts.pending.erase (g, TKind.tStart) }
  | fireEndNext (ts : TimerSys) (g : ℕ)
      (h : (g, TKind.tEnd) ∈ ts.pending) :
      TimerStep ts (armPair { ts with pending := [] })
  | fireEndStop (ts : TimerSys) (g : ℕ)
      (h : (g, TKind.tEnd) ∈ ts.pending) :
      TimerStep ts { pending := [], gen := ts.gen }

/-- The invariant: at most one armed prep/capture pair exists, all pending
timers belong to the current generation, and after the prep timer fired
only the capture timer remains. -/
def PairInv (ts : TimerSys) : Prop :=
  ts.pending = []
  ∨ ts.pending = [(ts.gen, TKind.tStart), (ts.gen, TKind.tEnd)]
  ∨ ts.pending = [(ts.gen, TKind.tEnd)]

namespace JsMatrix

theorem multiply_eq_mul {m n p : ℕ} (A : Mat m n) (B : Mat n p) :
    multiply A B = A * B := by
  ext i j
  simp [multiply, Matrix.mul_apply]

theorem transpose_eq_transpose {m n : ℕ} (A : Mat m n) :
    transpose A = A.transpose := rfl

end JsMatrix

namespace GJ

theorem gjStep_spec {n : ℕ} {st st' : Mat n n × Mat n n} {i : Fin n}
    (h : JsMatrix.gjStep st i = some st') :
    st.1 i i ≠ 0
    ∧ (∀ j, st'.1 i j = st.1 i j / st.1 i i)
    ∧ (∀ k j, k ≠ i → st'.1 k j
        = st.1 k j - st.1 k i * (st.1 i j / st.1 i i))
    ∧ (∀ j, st'.2 i j = st.2 i j / st.1 i i)
    ∧ (∀ k j, k ≠ i → st'.2 k j
        = st.2 k j - st.1 k i * (st.2 i j / st.1 i i)) := by
  by_cases hp : |st.1 i i| < JsMatrix.tol
  · simp [JsMatrix.gjStep, hp] at h
  · have hne : st.1 i i ≠ 0 := by
      intro h0
      apply hp
      rw [h0]
      simp [JsMatrix.tol]
    simp only [JsMatrix.gjStep, if_neg hp] at h
    have hpair := Option.some.inj h
    refine ⟨hne, ?_, ?_, ?_, ?_⟩
    · intro j
      rw [← hpair]
      simp
    · intro k j hk
      rw [← hpair]
      simp [hk]
    · intro j
      rw [← hpair]
      simp
    · intro k j hk
      rw [← hpair]
      simp [hk]

theorem gjStep_leftInv {n : ℕ} {A : Mat n n} {st st' : Mat n n × Mat n n}
    {i : Fin n} (h : JsMatrix.gjStep st i = some st') (hI : LeftInv A st) :
    LeftInv A st' := by
  obtain ⟨hp, h1, h2, h3, h4⟩ := gjStep_spec h
  have hmul : ∀ a b, (∑ t, st.2 a t * A t b) = st.1 a b := by
    intro a b
    rw [← Matrix.mul_apply, hI]
  unfold LeftInv
  ext k j
  rw [Matrix.mul_apply]
  by_cases hk : k = i
  · subst hk
    rw [h1 j]
    have hterm : ∀ t, st'.2 k t * A t j
        = st.2 k t * A t j / st.1 k k := by
      intro t
      rw [h3 t]
      ring
    rw [Finset.sum_congr rfl fun t _ => hterm t, ← Finset.sum_div, hmul]
  · rw [h2 k j hk]
    have hterm : ∀ t, st'.2 k t * A t j
        = st.2 k t * A t j
          - st.1 k i / st.1 i i * (st.2 i t * A t j) := by
      intro t
      rw [h4 k t hk]
      ring
    rw [Finset.sum_congr rfl fun t _ => hterm t, Finset.sum_sub_distrib,
      ← Finset.mul_sum, hmul, hmul]
    ring

theorem gjStep_colId_self {n : ℕ} {st st' : Mat n n × Mat n n} {i : Fin n}
    (h : JsMatrix.gjStep st i = some st') : ColId st'.1 i := by
  obtain ⟨hp, h1, h2, _, _⟩ := gjStep_spec h
  intro k
  by_cases hk : k = i
  · subst hk
    rw [h1 k, div_self hp, if_pos rfl]
  · rw [h2 k i hk, div_self hp, mul_one, sub_self, if_neg hk]

theorem gjStep_colId_pres {n : ℕ} {st st' : Mat n n × Mat n n}
    {i j : Fin n} (h : JsMatrix.gjStep st i = some st') (hj : j ≠ i)
    (hc : ColId st.1 j) : ColId st'.1 j := by
  obtain ⟨hp, h1, h2, _, _⟩ := gjStep_spec h
  have hij : st.1 i j = 0 := by
    rw [hc i, if_neg fun he => hj he.symm]
  intro k
  by_cases hk : k = i
  · subst hk
    rw [h1 j, hij, zero_div, if_neg fun he => hj he.symm]
  · rw [h2 k j hk, hij, zero_div, mul_zero, sub_zero, hc k]

theorem foldlM_leftInv {n : ℕ} {A : Mat n n} (l : List (Fin n)) :
    ∀ st st' : Mat n n × Mat n n,
      List.foldlM JsMatrix.gjStep st l = some st' →
      LeftInv A st → LeftInv A st' := by
  induction l with
  | nil =>
      intro st st' h hI
      simp only [List.foldlM_nil] at h
      cases h
      exact hI
  | cons i l ih =>
      intro st st' h hI
      rw [List.foldlM_cons] at h
      cases hg : JsMatrix.gjStep st i with
      | none =>
          rw [hg] at h
          simp at h
      | some st1 =>
          rw [hg] at h
          exact ih st1 st' h (gjStep_leftInv hg hI)

theorem foldlM_colId_pres {n : ℕ} {j : Fin n} (l : List (Fin n)) :
    ∀ st st' : Mat n n × Mat n n,
      List.foldlM JsMatrix.gjStep st l = some st' →
      j ∉ l → ColId st.1 j → ColId st'.1 j := by
  induction l with
  | nil =>
      intro st st' h _ hc
      simp only [List.foldlM_nil] at h
      cases h
      exact hc
  | cons i l ih =>
      intro st st' h hj hc
      rw [List.foldlM_cons] at h
      cases hg : JsMatrix.gjStep st i with
      | none =>
          rw [hg] at h
          simp at h
      | some st1 =>
          rw [hg] at h
          have hji : j ≠ i := fun he => hj (he ▸ List.mem_cons_self i l)
          have hjl : j ∉ l := fun hm => hj (List.mem_cons_of_mem i hm)
          exact ih st1 st' h hjl (gjStep_colId_pres hg hji hc)

theorem foldlM_colId_all {n : ℕ} (l : List (Fin n)) :
    ∀ st st' : Mat n n × Mat n n,
      List.foldlM JsMatrix.gjStep st l = some st' →
      l.Nodup → ∀ j ∈ l, ColId st'.1 j := by
  induction l with
  | nil =>
      intro st st' _ _ j hj
      cases hj
  | cons i l ih =>
      intro st st' h hnd j hj
      rw [List.foldlM_cons] at h
      cases hg : JsMatrix.gjStep st i with
      | none =>
          rw [hg] at h
          simp at h
      | some st1 =>
          rw [hg] at h
          rcases List.mem_cons.mp hj with rfl | hjl
          · have hnotin : j ∉ l := (List.nodup_cons.mp hnd).1
            exact foldlM_colId_pres l st1 st' h hnotin (gjStep_colId_self hg)
          · exact ih st1 st' h (List.nodup_cons.mp hnd).2 j hjl

end GJ

namespace JsMatrix

theorem invert_mul_self {n : ℕ} {A B : Mat n n} (h : invert A = some B) :
    B * A = 1 := by
  unfold invert at h
  cases hf : List.foldlM gjStep (A, (1 : Mat n n)) (List.finRange n) with
  | none =>
      rw [hf] at h
      simp at h
  | some st =>
      rw [hf] at h
      simp only [Option.map_some'] at h
      have hB : st.2 = B := by
        cases h
        rfl
      have hL : GJ.LeftInv A st := by
        refine GJ.foldlM_leftInv _ _ _ hf ?_
        unfold GJ.LeftInv
        exact Matrix.one_mul A
      have hC : st.1 = 1 := by
        ext k j
        have hall := GJ.foldlM_colId_all (List.finRange n) _ _ hf
          (List.nodup_finRange n) j (List.mem_finRange j)
        rw [hall k, Matrix.one_apply]
      unfold GJ.LeftInv at hL
      rw [hB, hC] at hL
      exact hL

theorem invert_eq_inv {n : ℕ} {A B : Mat n n} (h : invert A = some B) :
    A⁻¹ = B :=
  Matrix.inv_eq_right_inv (Matrix.mul_eq_one_comm.mpr (invert_mul_self h))

end JsMatrix

theorem finRange_one : List.finRange 1 = [0] := rfl

theorem finRange_two : List.finRange 2 = [0, 1] := rfl

theorem invert_one_none (a : ℚ) (h : |a| < JsMatrix.tol) :
    JsMatrix.invert (fun _ _ => a : Mat 1 1) = none := by
  unfold JsMatrix.invert
  rw [finRange_one, List.foldlM_cons]
  have hstep : JsMatrix.gjStep ((fun _ _ => a : Mat 1 1), (1 : Mat 1 1)) 0
      = none := by
    unfold JsMatrix.gjStep
    exact if_pos h
  rw [hstep]
  rfl

theorem invert_one_some (a : ℚ) (h : ¬ |a| < JsMatrix.tol) :
    JsMatrix.invert (fun _ _ => a : Mat 1 1) = some (fun _ _ => 1 / a) := by
  unfold JsMatrix.invert
  rw [finRange_one, List.foldlM_cons]
  have hstep : JsMatrix.gjStep ((fun _ _ => a : Mat 1 1), (1 : Mat 1 1)) 0
      = some ((fun _ _ => a / a : Mat 1 1), (fun _ _ => 1 / a : Mat 1 1)) := by
    unfold JsMatrix.gjStep
    rw [if_neg h]
    refine congrArg some ?_
    refine Prod.ext ?_ ?_
    · funext k j
      rw [Fin.eq_zero k, Fin.eq_zero j]
      simp
    · funext k j
      rw [Fin.eq_zero k, Fin.eq_zero j]
      simp [Matrix.one_apply]
  rw [hstep]
  rfl

theorem swapRows_self {n : ℕ} (M : Mat n n) (a : Fin n) :
    SpecPivot.swapRows M a a = M := by
  funext k j
  unfold SpecPivot.swapRows
  by_cases hk : k = a
  · subst hk
    simp
  · simp [hk]

theorem ppStep_eval {n : ℕ} (st : Mat n n × Mat n n) (i r : Fin n)
    (hr : SpecPivot.pivotRow st.1 i = r) (C D : Mat n n)
    (hC : SpecPivot.swapRows st.1 i r = C)
    (hD : SpecPivot.swapRows st.2 i r = D)
    (h : ¬ |C i i| < SpecPivot.tolSpec) :
    SpecPivot.ppStep st i
      = some
          (fun k j => if k = i then C i j / C i i
                      else C k j - C k i * (C i j / C i i),
           fun k j => if k = i then D i j / C i i
                      else D k j - C k i * (D i j / C i i)) := by
  simp only [SpecPivot.ppStep]
  rw [hr, hC, hD, if_neg h]

theorem invertPP_one_some (a : ℚ) (h : ¬ |a| < SpecPivot.tolSpec) :
    SpecPivot.invertPP (fun _ _ => a : Mat 1 1) = some (fun _ _ => 1 / a) := by
  unfold SpecPivot.invertPP
  rw [finRange_one, List.foldlM_cons]
  have hstep := ppStep_eval ((fun _ _ => a : Mat 1 1), (1 : Mat 1 1)) 0
    (SpecPivot.pivotRow (fun _ _ => a : Mat 1 1) 0) rfl
    (fun _ _ => a : Mat 1 1) (1 : Mat 1 1) ?_ ?_ ?_
  · rw [hstep]
    have hC : (fun k j => if k = (0 : Fin 1)
          then (fun _ _ => a : Mat 1 1) 0 j / (fun _ _ => a : Mat 1 1) 0 0
          else (fun _ _ => a : Mat 1 1) k j
            - (fun _ _ => a : Mat 1 1) k 0
              * ((fun _ _ => a : Mat 1 1) 0 j
                / (fun _ _ => a : Mat 1 1) 0 0))
        = (fun _ _ => a / a : Mat 1 1) := by
      funext k j
      rw [Fin.eq_zero k]
      simp
    have hD : (fun k j => if k = (0 : Fin 1)
          then (1 : Mat 1 1) 0 j / (fun _ _ => a : Mat 1 1) 0 0
          else (1 : Mat 1 1) k j
            - (fun _ _ => a : Mat 1 1) k 0
              * ((1 : Mat 1 1) 0 j / (fun _ _ => a : Mat 1 1) 0 0))
        = (fun _ _ => 1 / a : Mat 1 1) := by
      funext k j
      rw [Fin.eq_zero k, Fin.eq_zero j]
      simp [Matrix.one_apply]
    rw [hC, hD]
    rfl
  · rw [Fin.eq_zero (SpecPivot.pivotRow (fun _ _ => a : Mat 1 1) 0)]
    exact swapRows_self _ _
  · rw [Fin.eq_zero (SpecPivot.pivotRow (fun _ _ => a : Mat 1 1) 0)]
    exact swapRows_self _ _
  · exact h

theorem pivotRow_ceA2_zero : SpecPivot.pivotRow ceA2 0 = 1 := by
  unfold SpecPivot.pivotRow
  rw [finRange_two]
  have hfil : (([0, 1] : List (Fin 2)).filter fun r => (0 : Fin 2) ≤ r)
      = [0, 1] := by decide
  rw [hfil]
  simp only [List.foldl]
  simp only [ite_self]
  have h00 : ceA2 0 0 = 0 := rfl
  have h10 : ceA2 1 0 = 1 := rfl
  rw [h00, h10, if_pos (show |(0 : ℚ)| < |(1 : ℚ)| by norm_num)]

theorem pivotRow_one_one : SpecPivot.pivotRow (1 : Mat 2 2) 1 = 1 := by
  unfold SpecPivot.pivotRow
  rw [finRange_two]
  have hfil : (([0, 1] : List (Fin 2)).filter fun r => (1 : Fin 2) ≤ r)
      = [1] := by decide
  rw [hfil]
  simp only [List.foldl]
  simp only [ite_self]

theorem swap_ceA2 : SpecPivot.swapRows ceA2 0 1 = (1 : Mat 2 2) := by
  funext k j
  fin_cases k <;> fin_cases j <;> rfl

theorem swap_one : SpecPivot.swapRows (1 : Mat 2 2) 0 1 = ceA2 := by
  funext k j
  fin_cases k <;> fin_cases j <;> rfl

theorem ppStep_ceA2_zero :
    SpecPivot.ppStep (ceA2, (1 : Mat 2 2)) 0 = some ((1 : Mat 2 2), ceA2) := by
  have htol : ¬ |(1 : Mat 2 2) 0 0| < SpecPivot.tolSpec := by
    rw [Matrix.one_apply_eq]
    norm_num [SpecPivot.tolSpec]
  rw [ppStep_eval (ceA2, (1 : Mat 2 2)) 0 1 pivotRow_ceA2_zero
    (1 : Mat 2 2) ceA2 swap_ceA2 swap_one htol]
  refine congrArg some (Prod.ext ?_ ?_)
  · funext k j
    fin_cases k <;> fin_cases j <;>
      norm_num [Matrix.one_apply]
  · funext k j
    fin_cases k <;> fin_cases j <;>
      norm_num [Matrix.one_apply, ceA2]

theorem ppStep_ceA2_one :
    SpecPivot.ppStep ((1 : Mat 2 2), ceA2) 1 = some ((1 : Mat 2 2), ceA2) := by
  have htol : ¬ |(1 : Mat 2 2) 1 1| < SpecPivot.tolSpec := by
    rw [Matrix.one_apply_eq]
    norm_num [SpecPivot.tolSpec]
  rw [ppStep_eval ((1 : Mat 2 2), ceA2) 1 1 pivotRow_one_one
    (1 : Mat 2 2) ceA2 (swapRows_self _ _) (swapRows_self _ _) htol]
  refine congrArg some (Prod.ext ?_ ?_)
  · funext k j
    fin_cases k <;> fin_cases j <;>
      norm_num [Matrix.one_apply]
  · funext k j
    fin_cases k <;> fin_cases j <;>
      norm_num [Matrix.one_apply, ceA2]

theorem invertPP_ceA2 : SpecPivot.invertPP ceA2 = some ceA2 := by
  unfold SpecPivot.invertPP
  rw [finRange_two, List.foldlM_cons, ppStep_ceA2_zero]
  show (List.foldlM SpecPivot.ppStep ((1 : Mat 2 2), ceA2) [1]).map Prod.snd
    = some ceA2
  rw [List.foldlM_cons, ppStep_ceA2_one]
  rfl

theorem invert_ceA2_none : JsMatrix.invert ceA2 = none := by
  unfold JsMatrix.invert
  rw [finRange_two, List.foldlM_cons]
  have hstep : JsMatrix.gjStep (ceA2, (1 : Mat 2 2)) 0 = none := by
    unfold JsMatrix.gjStep
    exact if_pos (show |ceA2 0 0| < JsMatrix.tol by
      norm_num [ceA2, JsMatrix.tol])
  rw [hstep]
  rfl

/-- C1 (amended): ridge training solves `(XᵗX + 0.001·I)·W = XᵗY` with
`lambda = 0.001` added to every diagonal entry of `XᵗX`, obtains the
inverse by Gauss-Jordan elimination on the augmented `[A|I]` form *without*
row pivoting, and returns no model exactly when some elimination pivot has
absolute value below `1e-8`; whenever it succeeds, the returned `W` equals
`(XᵗX + 0.001·I)⁻¹ · Xᵗ · Y`. -/
theorem C1_ridge_solution {N M : ℕ} (inputs : Mat N M) (outputs : Mat N 2)
    (W : Mat M 2) (h : JsMatrix.solveLeastSquares inputs outputs = some W) :
    W = (JsMatrix.transpose inputs * inputs
          + JsMatrix.lam • (1 : Mat M M))⁻¹
        * (JsMatrix.transpose inputs * outputs) := by
  simp only [JsMatrix.solveLeastSquares] at h
  set A : Mat M M := fun i j =>
    JsMatrix.multiply (JsMatrix.transpose inputs) inputs i j
      + if i = j then JsMatrix.lam else 0 with hA
  cases hinv : JsMatrix.invert A with
  | none =>
      rw [hinv] at h
      cases h
  | some B =>
      rw [hinv] at h
      have hW := (Option.some.inj h).symm
      have hAeq : A = JsMatrix.transpose inputs * inputs
          + JsMatrix.lam • (1 : Mat M M) := by
        rw [hA]
        ext i j
        by_cases hij : i = j <;>
          simp [JsMatrix.multiply_eq_mul, Matrix.add_apply,
            Matrix.smul_apply, Matrix.one_apply, smul_eq_mul, hij]
      have hBinv : (JsMatrix.transpose inputs * inputs
          + JsMatrix.lam • (1 : Mat M M))⁻¹ = B := by
        rw [← hAeq]
        exact JsMatrix.invert_eq_inv hinv
      rw [hW, hBinv, JsMatrix.multiply_eq_mul, JsMatrix.multiply_eq_mul]

/-- C1, counterexample.  The claim says ridge training obtains the inverse
by Gaussian elimination *with partial pivoting* on `[A|I]` and fails
exactly when the matrix is singular within tolerance *1e-10* after
pivoting.  The source's `Matrix.invert` (the routine `solveLeastSquares`
calls) returns `none` on `[[1e-9]]`, a nonsingular matrix that the claimed
procedure (partial pivoting, tolerance `1e-10`) inverts to `[[1e9]]`, and
also returns `none` on the nonsingular exchange matrix `[[0,1],[1,0]]`,
which partial pivoting inverts; so inversion neither pivots nor uses
tolerance `1e-10`. -/
theorem C1_counterexample :
    JsMatrix.invert ceA1 = none
    ∧ ceA1.det ≠ 0
    ∧ SpecPivot.invertPP ceA1 = some (fun _ _ => 10 ^ 9)
    ∧ JsMatrix.invert ceA2 = none
    ∧ ceA2.det ≠ 0
    ∧ SpecPivot.invertPP ceA2 = some ceA2 := by
  refine ⟨?_, ?_, ?_, invert_ceA2_none, ?_, invertPP_ceA2⟩
  · refine invert_one_none (1 / 10 ^ 9) ?_
    rw [show |(1 : ℚ) / 10 ^ 9| = 1 / 10 ^ 9 from abs_of_pos (by norm_num)]
    norm_num [JsMatrix.tol]
  · rw [Matrix.det_fin_one]
    norm_num [ceA1]
  · have h := invertPP_one_some (1 / 10 ^ 9) (by
      rw [show |(1 : ℚ) / 10 ^ 9| = 1 / 10 ^ 9 from abs_of_pos (by norm_num)]
      norm_num [SpecPivot.tolSpec])
    rw [show SpecPivot.invertPP ceA1
        = SpecPivot.invertPP (fun _ _ => 1 / 10 ^ 9 : Mat 1 1) from rfl, h]
    refine congrArg some ?_
    funext i j
    norm_num
  · rw [Matrix.det_fin_two]
    norm_num [ceA2]

/-- C1, witness for the amended theorem: on a concrete one-sample,
one-feature training pair, `solveLeastSquares` succeeds and the returned
weights equal the regularized normal-equation solution. -/
theorem C1_witness :
    JsMatrix.solveLeastSquares wIn wOut = some wW
    ∧ wW = (JsMatrix.transpose wIn * wIn + JsMatrix.lam • (1 : Mat 1 1))⁻¹
        * (JsMatrix.transpose wIn * wOut) := by
  have hA : (fun i j =>
        JsMatrix.multiply (JsMatrix.transpose wIn) wIn i j
          + if i = j then JsMatrix.lam else 0 : Mat 1 1)
      = (fun _ _ => 1001 / 1000 : Mat 1 1) := by
    funext i j
    rw [Fin.eq_zero i, Fin.eq_zero j]
    simp [JsMatrix.multiply, JsMatrix.transpose, wIn, JsMatrix.lam,
      Fin.sum_univ_one]
    norm_num
  have hEval : JsMatrix.solveLeastSquares wIn wOut = some wW := by
    simp only [JsMatrix.solveLeastSquares]
    rw [hA, invert_one_some (1001 / 1000) (by
      rw [show |(1001 : ℚ) / 1000| = 1001 / 1000 from abs_of_pos (by norm_num)]
      norm_num [JsMatrix.tol])]
    refine congrArg some ?_
    funext i j
    rw [Fin.eq_zero i]
    fin_cases j <;>
      norm_num [JsMatrix.multiply, JsMatrix.transpose, wIn, wOut, wW,
        Fin.sum_univ_one]
  exact ⟨hEval, C1_ridge_solution wIn wOut wW hEval⟩

namespace DataCleaner

theorem trimOrder_perm (buffer : List (List ℚ)) :
    List.Perm (trimOrder buffer) (List.range buffer.length) :=
  List.perm_insertionSort _ _

theorem trimOrder_length (buffer : List (List ℚ)) :
    (trimOrder buffer).length = buffer.length :=
  (trimOrder_perm buffer).length_eq.trans (List.length_range _)

theorem trimOrder_nodup (buffer : List (List ℚ)) :
    (trimOrder buffer).Nodup :=
  ((trimOrder_perm buffer).nodup_iff).mpr (List.nodup_range _)

theorem trimOrder_sorted (buffer : List (List ℚ)) :
    (trimOrder buffer).Sorted (keyLe buffer) :=
  List.sorted_insertionSort _ _

theorem trimKept_sublist (buffer : List (List ℚ)) (t : ℚ) :
    List.Sublist (trimKept buffer t) (trimOrder buffer) :=
  (List.take_sublist _ _).trans (List.drop_sublist _ _)

theorem trimKept_nodup (buffer : List (List ℚ)) (t : ℚ) :
    (trimKept buffer t).Nodup :=
  (trimOrder_nodup buffer).sublist (trimKept_sublist buffer t)

theorem trimKept_lt_length (buffer : List (List ℚ)) (t : ℚ) :
    ∀ x ∈ trimKept buffer t, x < buffer.length := by
  intro x hx
  have hx2 : x ∈ trimOrder buffer := (trimKept_sublist buffer t).mem hx
  have hx3 : x ∈ List.range buffer.length :=
    (trimOrder_perm buffer).mem_iff.mp hx2
  exact List.mem_range.mp hx3

theorem trimKept_length (buffer : List (List ℚ)) (t : ℚ) :
    (trimKept buffer t).length
      = buffer.length - 2 * trimCount buffer.length t := by
  unfold trimKept
  rw [List.length_take, List.length_drop, trimOrder_length]
  exact min_eq_left (by omega)

end DataCleaner

theorem length_filter_comp {α β : Type} (f : α → β) (p : β → Bool)
    (l : List α) :
    (l.filter (fun a => p (f a))).length = ((l.map f).filter p).length := by
  induction l with
  | nil => rfl
  | cons a l ih =>
      by_cases h : p (f a) = true
      · simp [List.filter_cons, h, ih]
      · simp [List.filter_cons, h, ih]

theorem length_filter_range_mem (n : ℕ) (S : List ℕ) (hnd : S.Nodup)
    (hsub : ∀ x ∈ S, x < n) :
    ((List.range n).filter (fun i => decide (i ∈ S))).length = S.length := by
  have hperm : List.Perm ((List.range n).filter (fun i => decide (i ∈ S))) S := by
    rw [List.perm_ext_iff_of_nodup ((List.nodup_range n).filter _) hnd]
    intro a
    simp only [List.mem_filter, List.mem_range, decide_eq_true_eq]
    constructor
    · intro h
      exact h.2
    · intro h
      exact ⟨hsub a h, h⟩
  exact hperm.length_eq

theorem enum_filter_map_snd_sublist {α : Type} (l : List α)
    (q : ℕ × α → Bool) :
    List.Sublist ((l.enum.filter q).map Prod.snd) l := by
  have h1 : List.Sublist (l.enum.filter q) l.enum := List.filter_sublist _
  have h2 := h1.map Prod.snd
  rwa [List.enum_map_snd] at h2

theorem clean_trim_eq (sqrtFn : ℚ → ℚ) (buffer : List (List ℚ)) (t : ℚ)
    (h5 : 5 ≤ buffer.length) :
    DataCleaner.clean sqrtFn buffer .TRIM_TAILS t
      = (buffer.enum.filter
          (fun p => p.1 ∈ DataCleaner.trimKept buffer t)).map Prod.snd := by
  unfold DataCleaner.clean
  rw [if_neg (by omega)]

theorem clean_trim_length (sqrtFn : ℚ → ℚ) (buffer : List (List ℚ)) (t : ℚ)
    (h5 : 5 ≤ buffer.length) :
    (DataCleaner.clean sqrtFn buffer .TRIM_TAILS t).length
      = buffer.length - 2 * DataCleaner.trimCount buffer.length t := by
  rw [clean_trim_eq sqrtFn buffer t h5, List.length_map]
  have h := length_filter_comp Prod.fst
    (fun i => decide (i ∈ DataCleaner.trimKept buffer t)) buffer.enum
  rw [List.enum_map_fst,
    length_filter_range_mem buffer.length _ (DataCleaner.trimKept_nodup buffer t)
      (DataCleaner.trimKept_lt_length buffer t),
    DataCleaner.trimKept_length] at h
  exact h

theorem trimCount_lt (n : ℕ) (t : ℚ) (h5 : 5 ≤ n) (h0 : 0 ≤ t)
    (h45 : t ≤ 45 / 100) :
    2 * DataCleaner.trimCount n t < n := by
  have hfl : (⌊(n : ℚ) * t⌋ : ℚ) ≤ (n : ℚ) * t := Int.floor_le _
  have hnn : (0 : ℤ) ≤ ⌊(n : ℚ) * t⌋ := Int.floor_nonneg.mpr (by positivity)
  have hc : ((DataCleaner.trimCount n t : ℕ) : ℚ) ≤ (n : ℚ) * t := by
    unfold DataCleaner.trimCount
    rw [show (((⌊(n : ℚ) * t⌋).toNat : ℕ) : ℚ) = ((⌊(n : ℚ) * t⌋ : ℤ) : ℚ) by
      exact_mod_cast congrArg Int.cast (Int.toNat_of_nonneg hnn)]
    exact hfl
  have hn0 : (0 : ℚ) ≤ (n : ℚ) := by positivity
  have hmul : (n : ℚ) * t ≤ (n : ℚ) * (45 / 100) :=
    mul_le_mul_of_nonneg_left h45 hn0
  have hn5 : (5 : ℚ) ≤ (n : ℚ) := by exact_mod_cast h5
  have hlt : (2 * DataCleaner.trimCount n t : ℚ) < (n : ℚ) := by
    nlinarith [hc, hmul, hn5]
  exact_mod_cast hlt

/-- C4, counterexample.  The claim quantifies over *every* buffer, but
`DataCleaner.clean` is a no-op on buffers of fewer than 5 samples: on a
4-sample buffer with threshold 0.45 the claimed output would drop
`floor(4*0.45) = 1` sample from each end (leaving 2), yet cleaning returns
all 4 samples unchanged. -/
theorem C4_counterexample :
    DataCleaner.clean id tinyBuf .TRIM_TAILS (45 / 100) = tinyBuf
    ∧ tinyBuf.length = 4
    ∧ DataCleaner.trimCount tinyBuf.length (45 / 100) = 1
    ∧ tinyBuf.length - 2 * DataCleaner.trimCount tinyBuf.length (45 / 100)
        = 2 := by
  have hcount : DataCleaner.trimCount tinyBuf.length (45 / 100) = 1 := by
    unfold DataCleaner.trimCount
    rw [show ((tinyBuf.length : ℕ) : ℚ) * (45 / 100) = 9 / 5 by
      norm_num [tinyBuf]]
    rw [show ⌊(9 : ℚ) / 5⌋ = 1 by
      rw [Int.floor_eq_iff]
      norm_num]
    rfl
  refine ⟨rfl, rfl, hcount, ?_⟩
  rw [hcount]
  rfl

/-- C4 (amended): for every buffer holding at least 5 samples (below that
`DataCleaner.clean` is a no-op) and TRIM_TAILS threshold `t ∈ [0, 0.45]`,
the cleaned output is a subsequence of the input (kept samples stay in
their original relative order), its length is `N - 2*floor(N*t)` (each
tail loses `floor(N*t)` samples and the output is nonempty), and every
dropped sample from the low tail has reference-feature value at most that
of every kept sample, which in turn is at most that of every dropped
sample from the high tail (reference feature = first non-bias dimension). -/
theorem C4_trim_tails (sqrtFn : ℚ → ℚ) (buffer : List (List ℚ)) (t : ℚ)
    (h5 : 5 ≤ buffer.length) (h0 : 0 ≤ t) (h45 : t ≤ 45 / 100) :
    List.Sublist (DataCleaner.clean sqrtFn buffer .TRIM_TAILS t) buffer
    ∧ (DataCleaner.clean sqrtFn buffer .TRIM_TAILS t).length
        = buffer.length - 2 * DataCleaner.trimCount buffer.length t
    ∧ 2 * DataCleaner.trimCount buffer.length t < buffer.length
    ∧ (∀ i ∈ (DataCleaner.trimOrder buffer).take
          (DataCleaner.trimCount buffer.length t),
        ∀ j ∈ DataCleaner.trimKept buffer t,
          DataCleaner.featKey (buffer.getD i [])
            ≤ DataCleaner.featKey (buffer.getD j []))
    ∧ (∀ i ∈ DataCleaner.trimKept buffer t,
        ∀ j ∈ (DataCleaner.trimOrder buffer).drop
          (buffer.length - DataCleaner.trimCount buffer.length t),
          DataCleaner.featKey (buffer.getD i [])
            ≤ DataCleaner.featKey (buffer.getD j [])) := by
  have h2c := trimCount_lt buffer.length t h5 h0 h45
  refine ⟨?_, clean_trim_length sqrtFn buffer t h5, h2c, ?_, ?_⟩
  · rw [clean_trim_eq sqrtFn buffer t h5]
    exact enum_filter_map_snd_sublist buffer _
  · intro i hi j hj
    have hj2 : j ∈ (DataCleaner.trimOrder buffer).drop
        (DataCleaner.trimCount buffer.length t) :=
      (List.take_sublist _ _).subset hj
    exact (DataCleaner.trimOrder_sorted buffer).rel_of_mem_take_of_mem_drop
      hi hj2
  · intro i hi j hj
    have hi2 : i ∈ (DataCleaner.trimOrder buffer).take
        (buffer.length - DataCleaner.trimCount buffer.length t) := by
      have hi3 : i ∈ (DataCleaner.trimOrder buffer).take
          (DataCleaner.trimCount buffer.length t
            + (buffer.length - 2 * DataCleaner.trimCount buffer.length t)) := by
        rw [List.take_add]
        exact List.mem_append_right _ hi
      rwa [show DataCleaner.trimCount buffer.length t
          + (buffer.length - 2 * DataCleaner.trimCount buffer.length t)
          = buffer.length - DataCleaner.trimCount buffer.length t by omega]
        at hi3
    exact (DataCleaner.trimOrder_sorted buffer).rel_of_mem_take_of_mem_drop
      hi2 hj

/-- C4, witness: the amended theorem applied at a concrete 5-sample buffer
with threshold 1/4. -/
theorem C4_witness :
    (5 ≤ buf5.length ∧ (0 : ℚ) ≤ 1 / 4 ∧ (1 / 4 : ℚ) ≤ 45 / 100)
    ∧ (List.Sublist (DataCleaner.clean id buf5 .TRIM_TAILS (1 / 4)) buf5
        ∧ (DataCleaner.clean id buf5 .TRIM_TAILS (1 / 4)).length
            = buf5.length - 2 * DataCleaner.trimCount buf5.length (1 / 4)
        ∧ 2 * DataCleaner.trimCount buf5.length (1 / 4) < buf5.length
        ∧ (∀ i ∈ (DataCleaner.trimOrder buf5).take
              (DataCleaner.trimCount buf5.length (1 / 4)),
            ∀ j ∈ DataCleaner.trimKept buf5 (1 / 4),
              DataCleaner.featKey (buf5.getD i [])
                ≤ DataCleaner.featKey (buf5.getD j []))
        ∧ (∀ i ∈ DataCleaner.trimKept buf5 (1 / 4),
            ∀ j ∈ (DataCleaner.trimOrder buf5).drop
              (buf5.length - DataCleaner.trimCount buf5.length (1 / 4)),
              DataCleaner.featKey (buf5.getD i [])
                ≤ DataCleaner.featKey (buf5.getD j []))) :=
  ⟨⟨by decide, by norm_num, by norm_num⟩,
    C4_trim_tails id buf5 (1 / 4) (by decide) (by norm_num) (by norm_num)⟩

theorem convex_between (a x n : ℚ) (h0 : 0 ≤ a) (h1 : a ≤ 1) :
    min x n ≤ a * n + (1 - a) * x ∧ a * n + (1 - a) * x ≤ max x n := by
  rcases le_total x n with hxn | hxn
  · rw [min_eq_left hxn, max_eq_right hxn]
    constructor <;> nlinarith
  · rw [min_eq_right hxn, max_eq_left hxn]
    constructor <;> nlinarith

/-- C10: `KalmanSmoother.process(newX, newY)` adopts the input verbatim
(returning it and storing it) exactly when the internal state is (0,0) —
as it is initially and after `reset()` — and otherwise returns, per axis,
`alpha*new + (1-alpha)*previous`, which for `alpha ∈ [0,1]` lies between
the previous state and the new input on each axis. -/
theorem C10_process (s : KalmanSmoother) (newX newY : ℚ)
    (h0 : 0 ≤ s.alpha) (h1 : s.alpha ≤ 1) :
    ((s.x = 0 ∧ s.y = 0) →
      s.process newX newY = ((newX, newY), ⟨newX, newY, s.alpha⟩))
    ∧ (¬ (s.x = 0 ∧ s.y = 0) →
        (s.process newX newY).1
            = (s.alpha * newX + (1 - s.alpha) * s.x,
               s.alpha * newY + (1 - s.alpha) * s.y)
          ∧ min s.x newX ≤ (s.process newX newY).1.1
          ∧ (s.process newX newY).1.1 ≤ max s.x newX
          ∧ min s.y newY ≤ (s.process newX newY).1.2
          ∧ (s.process newX newY).1.2 ≤ max s.y newY)
    ∧ (KalmanSmoother.init s.alpha).x = 0
    ∧ (KalmanSmoother.init s.alpha).y = 0
    ∧ s.reset.x = 0 ∧ s.reset.y = 0 := by
  refine ⟨?_, ?_, rfl, rfl, rfl, rfl⟩
  · intro hz
    unfold KalmanSmoother.process
    rw [if_pos hz]
  · intro hz
    unfold KalmanSmoother.process
    rw [if_neg hz]
    refine ⟨rfl, ?_, ?_, ?_, ?_⟩
    · exact (convex_between s.alpha s.x newX h0 h1).1
    · exact (convex_between s.alpha s.x newX h0 h1).2
    · exact (convex_between s.alpha s.y newY h0 h1).1
    · exact (convex_between s.alpha s.y newY h0 h1).2

/-- C10, witness: the theorem applied at state (0,0) with input (7,9) and
at state (3,4) with alpha 1/2 and input (5,0). -/
theorem C10_witness :
    ((KalmanSmoother.mk 0 0 (1 / 2)).process 7 9
        = ((7, 9), ⟨7, 9, 1 / 2⟩))
    ∧ ((KalmanSmoother.mk 3 4 (1 / 2)).process 5 0).1
        = (1 / 2 * 5 + (1 - 1 / 2) * 3, 1 / 2 * 0 + (1 - 1 / 2) * 4) := by
  constructor
  · exact (C10_process ⟨0, 0, 1 / 2⟩ 7 9 (by norm_num) (by norm_num)).1
      ⟨rfl, rfl⟩
  · exact (((C10_process ⟨3, 4, 1 / 2⟩ 5 0 (by norm_num) (by norm_num)).2.1
      (by norm_num)).1)

theorem finishCurrentPhase_retryCount (env : CalibEnv) (s : CalibState) :
    (finishCurrentPhase env s).retryCount = s.retryCount := by
  simp only [finishCurrentPhase, reset]
  split_ifs <;> rfl

theorem captureProcess_retryCount (env : CalibEnv) (s : CalibState) :
    (captureProcess env s).retryCount = s.retryCount := by
  simp only [captureProcess]
  split_ifs <;> simp [finishCurrentPhase_retryCount]

/-- C2, counterexample.  The claim says the point is retried iff *fewer
than 5* samples remain after cleaning, and processed with 5 or more.  On a
buffer whose cleaned form has exactly 5 samples the handler retries
(`cleanBuffer.length > 5` is required to process), contradicting the
claimed boundary. -/
theorem C2_counterexample :
    (envStub.cleaner stateFive.collectionBuffer).length = 5
    ∧ captureEnd envStub stateFive
        = { stateFive with isCollecting := false, isCapturing := false,
                           retryCount := 1 }
    ∧ (captureEnd envStub stateFive).trainingSamples
        = stateFive.trainingSamples
    ∧ (captureEnd envStub stateFive).currentCalibIndex
        = stateFive.currentCalibIndex
    ∧ (captureEnd envStub stateFive).calibPhase = stateFive.calibPhase :=
  ⟨rfl, rfl, rfl, rfl, rfl⟩

/-- C2 (amended): at the end of every capture window the point is retried
iff *at most 5* samples remain after cleaning (the handler processes only
when strictly more than 5 remain, so exactly 5 also retries); a retry
changes nothing but the collecting/capturing flags and the retry counter —
the point index, the phase, and all accumulated training samples are left
unchanged — and with more than 5 remaining samples the handler processes
the point and does not retry. -/
theorem C2_retry_boundary (env : CalibEnv) (s : CalibState) :
    ((captureEnd env s).retryCount = s.retryCount + 1
      ↔ (env.cleaner s.collectionBuffer).length ≤ 5)
    ∧ ((env.cleaner s.collectionBuffer).length ≤ 5 →
        captureEnd env s
          = { s with isCollecting := false, isCapturing := false,
                     retryCount := s.retryCount + 1 }) := by
  unfold captureEnd
  by_cases h : 5 < (env.cleaner s.collectionBuffer).length
  · rw [if_pos h]
    constructor
    · constructor
      · intro habs
        rw [captureProcess_retryCount] at habs
        omega
      · intro hle
        omega
    · intro hle
      omega
  · rw [if_neg h]
    exact ⟨⟨fun _ => by omega, fun _ => rfl⟩, fun _ => rfl⟩

/-- C2, witness: the amended theorem applied at a concrete state whose
cleaned buffer has exactly 5 samples. -/
theorem C2_witness :
    ((captureEnd envStub stateFive).retryCount = stateFive.retryCount + 1
      ↔ (envStub.cleaner stateFive.collectionBuffer).length ≤ 5)
    ∧ ((envStub.cleaner stateFive.collectionBuffer).length ≤ 5 →
        captureEnd envStub stateFive
          = { stateFive with isCollecting := false, isCapturing := false,
                             retryCount := stateFive.retryCount + 1 }) :=
  C2_retry_boundary envStub stateFive

/-- C5: in INITIAL_MAPPING and FINE_TUNING, a successfully captured point
appends exactly one TrainingSample, whose features are the component-wise
arithmetic mean of the cleaned buffer and whose screen coordinates are the
point's percentages scaled by the viewport; afterwards the handler either
advances the index or finishes the phase on that extended accumulator. -/
theorem C5_appends_sample (env : CalibEnv) (s : CalibState)
    (h6 : 5 < (env.cleaner s.collectionBuffer).length)
    (hphase : s.calibPhase ≠ .VALIDATION)
    (F : ℕ) (hF : ∀ v ∈ env.cleaner s.collectionBuffer, v.length = F) :
    (captureEnd env s
      = if s.currentCalibIndex < s.calibPoints.length - 1 then
          { s with isCollecting := false, isCapturing := false,
                   trainingSamples := s.trainingSamples ++ [pointSample env s],
                   currentCalibIndex := s.currentCalibIndex + 1 }
        else
          finishCurrentPhase env
            { s with isCollecting := false, isCapturing := false,
                     trainingSamples :=
                       s.trainingSamples ++ [pointSample env s] })
    ∧ (pointSample env s).features.length = F
    ∧ (∀ i, i < F → (pointSample env s).features.getD i 0
        = ((env.cleaner s.collectionBuffer).map (fun v => v.getD i 0)).sum
          / ((env.cleaner s.collectionBuffer).length : ℚ)) := by
  have hne : env.cleaner s.collectionBuffer ≠ [] := by
    intro he
    rw [he] at h6
    simp at h6
  obtain ⟨v, vs, hcons⟩ := List.exists_cons_of_ne_nil hne
  have hhead : (env.cleaner s.collectionBuffer).headD [] = v := by
    rw [hcons]
    rfl
  have hvF : v.length = F := hF v (by rw [hcons]; exact List.mem_cons_self v vs)
  refine ⟨?_, ?_, ?_⟩
  · unfold captureEnd
    rw [if_pos h6]
    simp only [captureProcess]
    rw [if_pos hphase]
    rfl
  · unfold pointSample avgVector
    rw [hhead, hvF]
    simp
  · intro i hi
    unfold pointSample avgVector
    rw [hhead, hvF]
    rw [List.getD_eq_getElem?_getD, List.getElem?_map, List.getElem?_range hi]
    rfl

/-- C5, witness: the theorem applied at a concrete INITIAL_MAPPING state
whose cleaned buffer has 6 two-component vectors. -/
theorem C5_witness :
    (5 < (envStub.cleaner stateSix.collectionBuffer).length
      ∧ stateSix.calibPhase ≠ .VALIDATION)
    ∧ (captureEnd envStub stateSix
        = if stateSix.currentCalibIndex < stateSix.calibPoints.length - 1 then
            { stateSix with isCollecting := false, isCapturing := false,
                            trainingSamples := stateSix.trainingSamples ++ [pointSample envStub stateSix],
                            currentCalibIndex := stateSix.currentCalibIndex + 1 }
          else
            finishCurrentPhase envStub
              { stateSix with isCollecting := false, isCapturing := false,
                              trainingSamples := stateSix.trainingSamples ++ [pointSample envStub stateSix] })
    ∧ (pointSample envStub stateSix).features.length = 2
    ∧ (∀ i, i < 2 → (pointSample envStub stateSix).features.getD i 0
        = ((envStub.cleaner stateSix.collectionBuffer).map
            (fun v => v.getD i 0)).sum
          / ((envStub.cleaner stateSix.collectionBuffer).length : ℚ)) := by
  have h := C5_appends_sample envStub stateSix (by decide) (by decide) 2
    (by decide)
  exact ⟨⟨by decide, by decide⟩, h.1, h.2.1, h.2.2⟩

/-- C3: completing VALIDATION with at least one recorded error reports the
arithmetic mean of the recorded errors as the accuracy score, moves the
state machine out of calibration, and classifies accuracy as good exactly
when that mean is strictly below the literal threshold 300 (which lies in
the 200-300px design range). -/
theorem C3_validation_mean (env : CalibEnv) (s : CalibState)
    (hphase : s.calibPhase = .VALIDATION)
    (hne : s.validationErrors ≠ []) :
    (finishCurrentPhase env s).accuracyScore
        = some (s.validationErrors.sum / (s.validationErrors.length : ℚ))
    ∧ (finishCurrentPhase env s).status = .LOADING_MODEL
    ∧ ((validationSummary s.validationErrors).2 = true
        ↔ s.validationErrors.sum / (s.validationErrors.length : ℚ) < 300)
    ∧ (200 : ℚ) ≤ 300 ∧ (300 : ℚ) ≤ 300 := by
  have hlen : s.validationErrors.length > 0 := List.length_pos.mpr hne
  have hsum : validationSummary s.validationErrors
      = (s.validationErrors.sum / (s.validationErrors.length : ℚ),
         decide (s.validationErrors.sum
            / (s.validationErrors.length : ℚ) < 300)) := by
    unfold validationSummary
    rw [if_pos hlen]
  have hfin : finishCurrentPhase env s
      = { s with accuracyScore := some (validationSummary s.validationErrors).1,
                 status := .LOADING_MODEL } := by
    unfold finishCurrentPhase
    rw [if_neg (by rw [hphase]; decide), if_pos hphase]
  rw [hfin, hsum]
  refine ⟨rfl, rfl, ?_, by norm_num, le_refl 300⟩
  simp

/-- C3, witness: the theorem applied at a concrete VALIDATION state with
recorded errors 100px and 200px. -/
theorem C3_witness :
    (finishCurrentPhase envStub stateVal).accuracyScore
        = some (stateVal.validationErrors.sum
            / (stateVal.validationErrors.length : ℚ))
    ∧ (finishCurrentPhase envStub stateVal).status = .LOADING_MODEL
    ∧ ((validationSummary stateVal.validationErrors).2 = true
        ↔ stateVal.validationErrors.sum
            / (stateVal.validationErrors.length : ℚ) < 300)
    ∧ (200 : ℚ) ≤ 300 ∧ (300 : ℚ) ≤ 300 :=
  C3_validation_mean envStub stateVal rfl (List.cons_ne_nil _ _)

/-- C9: completing VALIDATION with zero recorded errors reports the
sentinel 999 instead of a mathematical mean, and 999 is not below the 300
threshold, so accuracy is classified as not good. -/
theorem C9_sentinel (env : CalibEnv) (s : CalibState)
    (hphase : s.calibPhase = .VALIDATION)
    (hes : s.validationErrors = []) :
    (finishCurrentPhase env s).accuracyScore = some 999
    ∧ validationSummary s.validationErrors = (999, false) := by
  have hs : validationSummary s.validationErrors = (999, false) := by
    rw [hes]
    unfold validationSummary
    rw [if_neg (by simp)]
    show ((999 : ℚ), decide ((999 : ℚ) < 300)) = (999, false)
    rw [show decide ((999 : ℚ) < 300) = false from decide_eq_false
      (by norm_num)]
  refine ⟨?_, hs⟩
  unfold finishCurrentPhase
  rw [if_neg (by rw [hphase]; decide), if_pos hphase]
  show some (validationSummary s.validationErrors).1 = some 999
  rw [hs]

/-- C9, witness: the theorem applied at a concrete VALIDATION state with
no recorded errors. -/
theorem C9_witness :
    (finishCurrentPhase envStub stateValEmpty).accuracyScore = some 999
    ∧ validationSummary stateValEmpty.validationErrors = (999, false) :=
  C9_sentinel envStub stateValEmpty rfl rfl

/-- C7: finishing INITIAL_MAPPING or FINE_TUNING with fewer than 5
accumulated samples aborts the session: the restart alert is surfaced, the
state machine returns to IDLE, the accumulated training data is discarded,
the regressor is replaced untrained, and no training is attempted (the
result does not depend on the train function at all). -/
theorem C7_insufficient_total (env : CalibEnv) (s : CalibState)
    (hphase : s.calibPhase = .INITIAL_MAPPING
      ∨ s.calibPhase = .FINE_TUNING)
    (hlt : s.trainingSamples.length < 5) :
    finishCurrentPhase env s
        = { s with status := .IDLE, trainingSamples := [], trained := false,
                   alert := some .insufficientData }
    ∧ (∀ tk : List (List ℚ) → List (List ℚ) → Bool,
        finishCurrentPhase { env with trainOk := tk } s
          = finishCurrentPhase env s) := by
  have hmain : ∀ e : CalibEnv, finishCurrentPhase e s
      = { s with status := .IDLE, trainingSamples := [], trained := false,
                 alert := some .insufficientData } := by
    intro e
    unfold finishCurrentPhase reset
    rw [if_pos hphase, if_pos hlt]
  exact ⟨hmain env, fun tk => (hmain _).trans (hmain env).symm⟩

/-- C7, witness: the theorem applied at a concrete INITIAL_MAPPING state
holding 4 samples. -/
theorem C7_witness :
    finishCurrentPhase envStub stateFour
        = { stateFour with status := .IDLE, trainingSamples := [],
                           trained := false,
                           alert := some .insufficientData }
    ∧ (∀ tk : List (List ℚ) → List (List ℚ) → Bool,
        finishCurrentPhase { envStub with trainOk := tk } stateFour
          = finishCurrentPhase envStub stateFour) :=
  C7_insufficient_total envStub stateFour (Or.inl rfl) (by decide)

theorem collectFlagAfter_pair (p cap t : ℚ) :
    (collectFlagAfter [(p, true), (p + cap, false)] t = true)
      ↔ (p ≤ t ∧ t < p + cap) := by
  unfold collectFlagAfter
  simp only [List.foldl]
  by_cases h2 : p + cap ≤ t
  · rw [if_pos h2]
    simp only [Bool.false_eq_true, false_iff]
    intro hand
    exact absurd h2 (not_le.mpr hand.2)
  · rw [if_neg h2]
    by_cases h1 : p ≤ t
    · rw [if_pos h1]
      simp only [true_iff]
      exact ⟨h1, not_le.mp h2⟩
    · rw [if_neg h1]
      simp only [Bool.false_eq_true, false_iff]
      intro hand
      exact h1 hand.1

/-- C6: a feature vector arriving `t` milliseconds after a calibration
point becomes current is buffered exactly when `800*m ≤ t < (800+1200)*m`,
where the multiplier `m` is 0.5 for FAST, 1.0 for NORMAL, and 1.5 for
SLOW: the `tStart` timeout turns collection on at `prepTime = 800*m` and
the `tEnd` timeout turns it off at `prepTime + captureTime = (800+1200)*m`,
and before `tStart` fires nothing is collected. -/
theorem C6_capture_window (c : CalibrationSpeed) (t : ℚ) :
    (collectFlagAfter (calibSchedule c) t = true
      ↔ 800 * speedMultiplier c ≤ t
        ∧ t < (800 + 1200) * speedMultiplier c)
    ∧ speedMultiplier .FAST = 1 / 2
    ∧ speedMultiplier .NORMAL = 1
    ∧ speedMultiplier .SLOW = 3 / 2
    ∧ prepTime c = 800 * speedMultiplier c
    ∧ prepTime c + captureTime c = (800 + 1200) * speedMultiplier c := by
  have hsum : (800 + 1200) * speedMultiplier c
      = prepTime c + captureTime c := by
    unfold prepTime captureTime
    ring
  refine ⟨?_, rfl, rfl, rfl, rfl, hsum.symm⟩
  rw [hsum]
  exact collectFlagAfter_pair (prepTime c) (captureTime c) t

theorem pairInv_armPair (ts : TimerSys) : PairInv (armPair ts) :=
  Or.inr (Or.inl rfl)

theorem timerStep_pairInv {ts ts' : TimerSys} (h : TimerStep ts ts')
    (hinv : PairInv ts) : PairInv ts' := by
  cases h with
  | effectCalib => exact pairInv_armPair ts
  | effectOther => exact Or.inl rfl
  | fireStart g hmem =>
      rcases hinv with he | hp | he2
      · rw [he] at hmem
        cases hmem
      · rw [hp] at hmem
        rcases List.mem_cons.mp hmem with hh | hh
        · have hg : g = ts.gen := congrArg Prod.fst hh
          refine Or.inr (Or.inr ?_)
          show (ts.pending.erase (g, TKind.tStart)) = [(ts.gen, TKind.tEnd)]
          rw [hp, hg]
          exact List.erase_cons_head _ _
        · rcases List.mem_cons.mp hh with hh2 | hh2
          · cases hh2
          · cases hh2
      · rw [he2] at hmem
        rcases List.mem_cons.mp hmem with hh | hh
        · cases hh
        · cases hh
  | fireEndNext g hmem => exact pairInv_armPair _
  | fireEndStop g hmem => exact Or.inl rfl

theorem pairInv_gen {ts : TimerSys} (hinv : PairInv ts) :
    ∀ g k, (g, k) ∈ ts.pending → g = ts.gen := by
  intro g k hmem
  rcases hinv with he | hp | he2
  · rw [he] at hmem
    cases hmem
  · rw [hp] at hmem
    rcases List.mem_cons.mp hmem with hh | hh
    · exact congrArg Prod.fst hh
    · rcases List.mem_cons.mp hh with hh2 | hh2
      · exact congrArg Prod.fst hh2
      · cases hh2
  · rw [he2] at hmem
    rcases List.mem_cons.mp hmem with hh | hh
    · exact congrArg Prod.fst hh
    · cases hh

/-- C8: every timer state reachable from startup satisfies the armed-pair
invariant — at any time the pending timeouts are nothing, one fresh
prep/capture pair, or the capture timer alone (prep already fired) — all
pending timers carry the current effect generation (so a callback armed
for a previous point/phase/retry has been cancelled and, since firing
requires being pending, can never mutate state), and at most 2 timers are
pending. -/
theorem C8_timer_invariant (ts : TimerSys)
    (hreach : Relation.ReflTransGen TimerStep initTimers ts) :
    PairInv ts
    ∧ (∀ g k, (g, k) ∈ ts.pending → g = ts.gen)
    ∧ ts.pending.length ≤ 2 := by
  have hinv : PairInv ts := by
    induction hreach with
    | refl => exact Or.inl rfl
    | tail _ hstep ih => exact timerStep_pairInv hstep ih
  refine ⟨hinv, pairInv_gen hinv, ?_⟩
  rcases hinv with he | hp | he2
  · rw [he]
    simp
  · rw [hp]
    simp
  · rw [he2]
    simp

/-- C8, witness: the invariant theorem applied to the state reached by one
effect run that arms the first pair. -/
theorem C8_witness :
    PairInv (armPair initTimers)
    ∧ (∀ g k, (g, k) ∈ (armPair initTimers).pending
        → g = (armPair initTimers).gen)
    ∧ (armPair initTimers).pending.length ≤ 2 :=
  C8_timer_invariant (armPair initTimers)
    (Relation.ReflTransGen.single (TimerStep.effectCalib initTimers))
